import Mathlib

/-!
Shallow embedding of the agentic tool-use loop of the claude-discord-bot
repository (file containing `callClaude`, `trimOlderToolResults`,
`estimateTokens`, `truncateResult`, the tool-result dedup cache and the
forced-summary fallback), together with theorems settling the frozen
claims about it.

Modelling conventions:
* JavaScript strings are modelled as Lean `String` (UTF-16 length is
  approximated by codepoint length; no claim depends on the difference).
* Machine numbers that matter (token counts, lengths, iteration counts)
  are `Nat`.  The floating-point cost estimate only feeds a status text;
  it is modelled by exact integer arithmetic in 10^-8 dollars with
  half-up rounding for `toFixed(2)` (float rounding noise is not
  modelled; no claim depends on the cost text).
* Fallible operations (a tool throwing, the LLM client failing) are
  modelled with `Except String`.
* The externally mutated abort flag `context._aborted` is modelled by
  the sequence of values the loop reads: the flag is set once and never
  cleared, so the reads are described by `abortFrom : Option Nat`, the
  index of the first read that returns `true` (`none` = never set).
  Every syntactic read of `context._aborted` consumes one poll index.
* Ghost instrumentation (`trace`, `llmLog`, `execLog`, `pollCount`,
  `finalMessages`, `exitKind`, `summaryIssued`) records observable
  events without influencing control flow or data, so that temporal
  claims can be stated.
* The `onText` / `onToolStart` callbacks, usage tracking
  (`trackApiCall`, `trackTokens`) and logging (`logApiCall`,
  `logToolCall`) mutate nothing the loop reads; they are omitted.
-/

namespace AgentLoop

-- JSON values as produced by parsing model tool inputs.  Objects keep
-- insertion order of their fields, exactly like JavaScript objects, which
-- is what JSON.stringify serializes.  Mutual inductives are used instead
-- of a nested List so that all recursions stay structural.
mutual

inductive Json where
  | str (s : String)
  | num (n : Int)
  | bool (b : Bool)
  | null
  | arr (elems : JsonList)
  | obj (fields : JsonFields)
deriving DecidableEq

inductive JsonList where
  | nil
  | cons (hd : Json) (tl : JsonList)
deriving DecidableEq

inductive JsonFields where
  | nil
  | cons (key : String) (val : Json) (tl : JsonFields)
deriving DecidableEq

end

-- Serialization exactly as JSON.stringify renders a parsed value:
-- fields in insertion order, no whitespace.  (String escape sequences are
-- not modelled; the concrete inputs used in proofs contain none.)
mutual

def jsonStringify : Json → String
  | .str s => "\"" ++ s ++ "\""
  | .num n => toString n
  | .bool b => Bool.rec "false" "true" b
  | .null => "null"
  | .arr xs => "[" ++ jsonStringifyList xs ++ "]"
  | .obj fs => "\x7b" ++ jsonStringifyFields fs ++ "\x7d"

def jsonStringifyList : JsonList → String
  | .nil => ""
  | .cons x .nil => jsonStringify x
  | .cons x (.cons y tl) => jsonStringify x ++ "," ++ jsonStringifyList (.cons y tl)

def jsonStringifyFields : JsonFields → String
  | .nil => ""
  | .cons k v .nil => "\"" ++ k ++ "\":" ++ jsonStringify v
  | .cons k v (.cons k2 v2 tl) =>
      "\"" ++ k ++ "\":" ++ jsonStringify v ++ "," ++ jsonStringifyFields (.cons k2 v2 tl)

end

/-- Field access `input.key` on a parsed JSON value (`undefined` is
`none`). -/
def jsonFieldsLookup : JsonFields → String → Option Json
  | .nil, _ => none
  | .cons k v tl, key => if k = key then some v else jsonFieldsLookup tl key

def jsonField (j : Json) (key : String) : Option Json :=
  match j with
  | .obj fs => jsonFieldsLookup fs key
  | _ => none

/-- JavaScript truthiness of a parsed JSON value. -/
def jsonTruthy : Option Json → Bool
  | none => false
  | some (.str s) => s ≠ ""
  | some (.num n) => n ≠ 0
  | some (.bool b) => b
  | some .null => false
  | some (.arr _) => true
  | some (.obj _) => true

/-- Message roles: the strings `user` and `assistant` in the source. -/
inductive Role where
  | user
  | assistant
deriving DecidableEq

/-- Content blocks as they occur in the loop: model text blocks, model
tool requests, and the tool-result blocks the loop constructs.  The
status note the loop injects is a plain text block. -/
inductive ContentBlock where
  | text (text : String)
  | tool_use (id : String) (name : String) (input : Json)
  | tool_result (tool_use_id : String) (content : String)
deriving DecidableEq

/-- A message content is either a plain string or an array of blocks. -/
inductive MsgContent where
  | str (s : String)
  | blocks (bs : List ContentBlock)
deriving DecidableEq

structure Message where
  role : Role
  content : MsgContent
deriving DecidableEq

/-- The JSON object `JSON.stringify` sees for a content block, with the
field order the objects are built with in the source. -/
def blockToJson : ContentBlock → Json
  | .text t => .obj (.cons "type" (.str "text") (.cons "text" (.str t) .nil))
  | .tool_use id name input =>
      .obj (.cons "type" (.str "tool_use") (.cons "id" (.str id)
        (.cons "name" (.str name) (.cons "input" input .nil))))
  | .tool_result id c =>
      .obj (.cons "type" (.str "tool_result") (.cons "tool_use_id" (.str id)
        (.cons "content" (.str c) .nil)))

def TOOL_RESULT_MAX_CHARS : Nat := 12000
def CONTEXT_TOKEN_BUDGET : Nat := 50000
def MAX_HISTORY_MESSAGES : Nat := 10

/-- Character count of one message content, as `estimateTokens` sums it:
string content contributes its length, an array contributes the length
of `JSON.stringify` of each block.  (Blocks are always objects in every
flow of the loop, so the defensive string-block branch of the source is
not reachable and not modelled.) -/
def contentChars : MsgContent → Nat
  | .str s => s.length
  | .blocks bs => (bs.map (fun b => (jsonStringify (blockToJson b)).length)).sum

/-- Rough token estimate, about 4 characters per token,
`Math.ceil(chars / 4)`. -/
def estimateTokens (messages : List Message) : Nat :=
  ((messages.map (fun m => contentChars m.content)).sum + 3) / 4

/-- Truncate oversized tool results, appending the truncation notice. -/
def truncateResult (text : String) : String :=
  if text.length ≤ TOOL_RESULT_MAX_CHARS then text
  else (text.take TOOL_RESULT_MAX_CHARS) ++
    "\n\n[... truncated — original " ++ toString text.length ++
    " chars. Request specific sections if needed.]"

/-- Per-block compaction step of `trimOlderToolResults`: tool results
longer than 500 characters are cut to a 500 character head plus a
trimmed marker. -/
def trimBlock (b : ContentBlock) : ContentBlock :=
  match b with
  | .tool_result id c =>
      if 500 < c.length then
        .tool_result id ((c.take 500) ++ "\n[... trimmed to save context ...]")
      else b
  | _ => b

/-- Per-message compaction step: only user messages whose content is a
block array are rewritten. -/
def trimMessage (m : Message) : Message :=
  match m with
  | ⟨.user, .blocks bs⟩ => ⟨.user, .blocks (bs.map trimBlock)⟩
  | _ => m

/-- Replace the message at one index by its compacted form (the in-place
assignment `trimmed[i] = ...` of the source). -/
def modifyAt : Nat → List Message → List Message
  | _, [] => []
  | 0, m :: rest => trimMessage m :: rest
  | n + 1, m :: rest => m :: modifyAt n rest

/-- The compaction for-loop: index `i` runs while `i < length - 4`
(the last 4 messages are the protected tail), each step compacts the
message at `i` and stops early once the estimate fits the budget.
The structural `fuel` argument starts at the list length, which is
strictly more than the at most `length - 4` steps the loop can take, so
it never runs out before the loop condition fails. -/
def trimGo (env_unused : Unit) : Nat → Nat → List Message → List Message
  | 0, _, trimmed => trimmed
  | fuel + 1, i, trimmed =>
    if i < trimmed.length - 4 then
      let t := modifyAt i trimmed
      if estimateTokens t ≤ CONTEXT_TOKEN_BUDGET then t
      else trimGo env_unused fuel (i + 1) t
    else trimmed

/-- Trim older tool iterations when context exceeds budget. -/
def trimOlderToolResults (messages : List Message) : List Message :=
  if estimateTokens messages ≤ CONTEXT_TOKEN_BUDGET then messages
  else trimGo () messages.length 0 messages

theorem modifyAt_length (i : Nat) (l : List Message) :
    (modifyAt i l).length = l.length := by
  induction l generalizing i with
  | nil => cases i <;> rfl
  | cons m rest ih =>
    cases i with
    | zero => rfl
    | succ n => simp [modifyAt, ih]

theorem modifyAt_drop (i n : Nat) (l : List Message) (h : i < n) :
    (modifyAt i l).drop n = l.drop n := by
  induction l generalizing i n with
  | nil => cases i <;> rfl
  | cons m rest ih =>
    cases i with
    | zero =>
      cases n with
      | zero => omega
      | succ n2 => simp [modifyAt]
    | succ i2 =>
      cases n with
      | zero => omega
      | succ n2 =>
        simp only [modifyAt, List.drop_succ_cons]
        exact ih i2 n2 (by omega)

theorem trimGo_length (fuel i : Nat) (l : List Message) :
    (trimGo () fuel i l).length = l.length := by
  induction fuel generalizing i l with
  | zero => rfl
  | succ fuel ih =>
    simp only [trimGo]
    split
    · split
      · exact modifyAt_length i l
      · rw [ih, modifyAt_length]
    · rfl

theorem trimGo_drop (fuel i n : Nat) (l : List Message) (h : l.length - 4 ≤ n) :
    (trimGo () fuel i l).drop n = l.drop n := by
  induction fuel generalizing i l with
  | zero => rfl
  | succ fuel ih =>
    simp only [trimGo]
    split
    · rename_i hi
      split
      · exact modifyAt_drop i n l (by omega)
      · rw [ih (i + 1) (modifyAt i l) (by rw [modifyAt_length]; exact h),
            modifyAt_drop i n l (by omega)]
    · rfl

theorem trimOlderToolResults_length (messages : List Message) :
    (trimOlderToolResults messages).length = messages.length := by
  unfold trimOlderToolResults
  split
  · rfl
  · exact trimGo_length messages.length 0 messages

theorem trimOlderToolResults_drop (messages : List Message) :
    (trimOlderToolResults messages).drop (messages.length - 4) =
      messages.drop (messages.length - 4) := by
  unfold trimOlderToolResults
  split
  · rfl
  · exact trimGo_drop messages.length 0 (messages.length - 4) messages (Nat.le_refl _)

/-! Tool-use loop machinery. -/

/-- Tools whose output reflects external mutable state are exempt from
the dedup cache. -/
def CACHE_EXEMPT_TOOLS : List String :=
  ["git_status", "git_diff", "git_log", "repo_list", "repo_read", "shell"]

/-- Dedup cache key, built exactly as in the source:
`name + ":" + JSON.stringify(input)`. -/
def cacheKey (name : String) (input : Json) : String :=
  name ++ ":" ++ jsonStringify input

-- JavaScript Map over string keys, as an association list.
def cacheGet (m : List (String × String)) (k : String) : Option String :=
  (m.find? (fun p => p.1 = k)).map (fun p => p.2)

def cacheHas (m : List (String × String)) (k : String) : Bool :=
  m.any (fun p => p.1 = k)

def cacheSet (m : List (String × String)) (k v : String) : List (String × String) :=
  if cacheHas m k then m.map (fun p => if p.1 = k then (k, v) else p)
  else m ++ [(k, v)]

/-- JavaScript Set insertion (keeps first-insertion order, deduplicates). -/
def setAdd (l : List String) (x : String) : List String :=
  if l.contains x then l else l ++ [x]

/-- Pricing table in cents per million tokens (the source stores dollars
with two decimals; scaling by 100 keeps the arithmetic exact). -/
def MODEL_PRICING : List (String × Nat × Nat) :=
  [ ("claude-sonnet-4-6", (300, 1500))
  , ("claude-sonnet-4-20250514", (300, 1500))
  , ("claude-sonnet-3-5-20241022", (300, 1500))
  , ("claude-sonnet-3-5-20240620", (300, 1500))
  , ("claude-opus-4-6", (1500, 7500))
  , ("claude-opus-4-20250514", (1500, 7500))
  , ("claude-haiku-4-5-20251001", (80, 400))
  , ("claude-haiku-3-5-20241022", (80, 400))
  ]

/-- Pricing lookup of `calculateCost`: exact match first, then the first
key whose stem before `-20` the model name starts with, else Sonnet
pricing as fallback. -/
def findPricing (model : String) : Nat × Nat :=
  match (MODEL_PRICING.find? (fun p => p.1 = model)) with
  | some p => p.2
  | none =>
    match (MODEL_PRICING.find? (fun p =>
        model.startsWith (((p.1.splitOn "-20").headD p.1)))) with
    | some p => p.2
    | none => (300, 1500)

/-- Cost of a call in 10^-8 dollars: `(in * pIn + out * pOut) / 1e6`
dollars with prices carrying two decimals scales to this integer. -/
def calculateCostE8 (model : String) (inputTokens outputTokens : Nat) : Nat :=
  let p := findPricing model
  inputTokens * p.1 + outputTokens * p.2

/-- Integer rendering of `toFixed(2)` for a value in 10^-8 dollars:
round half up to cents, print with two decimals.  (Binary float rounding
noise of the source is not modelled; the cost text feeds no claim.) -/
def toFixed2OfE8 (e8 : Nat) : String :=
  let cents := (e8 + 500000) / 1000000
  toString (cents / 100) ++ "." ++
    (if cents % 100 < 10 then "0" ++ toString (cents % 100) else toString (cents % 100))

/-- Phase-aware status line injected after each tool round.  Ratio
comparisons `iterations / maxIter < 0.7` and `< 0.9` are carried out in
exact integer arithmetic. -/
def statusNoteText (claudeModel : String) (iterations maxIter totalIn totalOut : Nat) : String :=
  let phase :=
    if iterations ≤ 3 then "Research"
    else if iterations * 10 < maxIter * 7 then "Action"
    else if iterations * 10 < maxIter * 9 then "Wrap up"
    else "STOP"
  "[System: Iteration " ++ toString iterations ++ "/" ++ toString maxIter ++
    " (" ++ phase ++ ") | Tokens: " ++ toString (totalIn + totalOut) ++
    " | Cost: $" ++ toFixed2OfE8 (calculateCostE8 claudeModel totalIn totalOut) ++ "]"

/-- A tool request extracted from a model response. -/
structure ToolUse where
  id : String
  name : String
  input : Json
deriving DecidableEq

/-- The `tool_use` blocks of a response, in response order. -/
def toolUseBlocksOf (content : List ContentBlock) : List ToolUse :=
  content.filterMap (fun b =>
    match b with
    | .tool_use id name input => some ⟨id, name, input⟩
    | _ => none)

/-- An LLM response: content blocks, stop reason and usage (a missing
usage object reads as zero tokens, matching `usage?.input_tokens || 0`). -/
structure Response where
  content : List ContentBlock
  stop_reason : String
  input_tokens : Nat
  output_tokens : Nat
deriving DecidableEq

/-- PR context detected from tool inputs for post-response buttons. -/
structure PrContext where
  owner : String
  repo : String
  number : Json
deriving DecidableEq

/-- Static configuration the loop reads. -/
structure Config where
  claudeModel : String
  maxToolIterations : Nat

/-- External collaborators of one run.  `llm` is the LLM client: the
flag tells whether the tool catalog is attached (`false` only for the
forced summary call), the `Nat` is the number of LLM calls already made,
and the messages are the request body; an `error` models a transport or
auth failure, which the loop propagates.  `exec` is the Tool Executor,
indexed by the number of executor invocations already made so stateful
tools are expressible; an `error` models the tool throwing.  `abortFrom`
gives the first poll of `context._aborted` that reads `true`. -/
structure Env where
  llm : Bool → Nat → List Message → Except String Response
  exec : Nat → String → Json → Except String String
  abortFrom : Option Nat

/-- Value read by the poll with index `k`: the abort flag is set once by
a collaborator and never cleared, so all polls from `abortFrom` on read
`true`. -/
def abortRead (abortFrom : Option Nat) (k : Nat) : Bool :=
  match abortFrom with
  | none => false
  | some a => a ≤ k

/-- Ghost trace events: each LLM call of the main loop, each actual Tool
Executor invocation, each poll of the abort flag with the value read,
and the forced summary call. -/
inductive Ev where
  | llmCall
  | toolExec (name : String)
  | poll (value : Bool)
  | summaryCall
deriving DecidableEq

/-- Loop state: the mutable locals of `callClaude` plus ghost
instrumentation (`pollCount`, `execLog`, `trace`, `llmLog`). -/
structure LoopSt where
  currentMessages : List Message
  iterations : Nat
  lastResponse : Option Response
  totalInputTokens : Nat
  totalOutputTokens : Nat
  toolsUsed : List String
  prContext : Option PrContext
  toolCache : List (String × String)
  pollCount : Nat
  execLog : List (String × Json)
  trace : List Ev
  llmLog : List (List Message)

/-- PR-context detection for `github_get_pr` / `github_review_pr`
inputs whose `repo` is a truthy string of the form `owner/name` and
whose `pr_number` is truthy.  (A truthy non-string `repo` would raise in
the source; such inputs are outside the modelled flows.) -/
def detectPr (tu : ToolUse) (pr : Option PrContext) : Option PrContext :=
  if tu.name = "github_get_pr" ∨ tu.name = "github_review_pr" then
    match jsonField tu.input "repo", jsonField tu.input "pr_number" with
    | some (.str repo), some prNum =>
      if repo ≠ "" ∧ jsonTruthy (some prNum) then
        match repo.splitOn "/" with
        | [owner, name] => some ⟨owner, name, prNum⟩
        | _ => pr
      else pr
    | _, _ => pr
  else pr

/-- Cache-hit annotation appended to a deduplicated result. -/
def cachedMarker : String :=
  "\n\n[Cached — identical to previous call. Try a different approach or parameters.]"

/-- Processing of a single `tool_use` block: usage tracking, PR
detection, dedup-cache consultation, execution with error containment,
caching of successful results, truncation, and appending the
`tool_result` block. -/
def processTool (env : Env) (tu : ToolUse) (st : LoopSt) (acc : List ContentBlock) :
    LoopSt × List ContentBlock :=
  let st1 := { st with
    toolsUsed := setAdd st.toolsUsed tu.name,
    prContext := detectPr tu st.prContext }
  let key := cacheKey tu.name tu.input
  if cacheHas st1.toolCache key ∧ ¬ CACHE_EXEMPT_TOOLS.contains tu.name then
    (st1, acc ++ [.tool_result tu.id
      (truncateResult (((cacheGet st1.toolCache key).getD "") ++ cachedMarker))])
  else
    match env.exec st1.execLog.length tu.name tu.input with
    | .ok r =>
      ({ st1 with
          toolCache := cacheSet st1.toolCache key r,
          execLog := st1.execLog ++ [(tu.name, tu.input)],
          trace := st1.trace ++ [.toolExec tu.name] },
       acc ++ [.tool_result tu.id (truncateResult r)])
    | .error e =>
      ({ st1 with
          execLog := st1.execLog ++ [(tu.name, tu.input)],
          trace := st1.trace ++ [.toolExec tu.name] },
       acc ++ [.tool_result tu.id (truncateResult ("Error: " ++ e))])

/-- The per-round for-loop over requested tools: process each tool, then
poll the abort flag between tool executions and stop on a `true` read. -/
def runTools (env : Env) : List ToolUse → LoopSt → List ContentBlock →
    LoopSt × List ContentBlock
  | [], st, acc => (st, acc)
  | tu :: rest, st, acc =>
    let pr := processTool env tu st acc
    let ab := abortRead env.abortFrom pr.1.pollCount
    let st2 := { pr.1 with
      pollCount := pr.1.pollCount + 1, trace := pr.1.trace ++ [.poll ab] }
    if ab then (st2, pr.2) else runTools env rest st2 pr.2

/-- How the while loop was left. -/
inductive ExitKind where
  | maxedOut
  | abortTop
  | endTurn
  | abortTools
deriving DecidableEq

/-- Increment of the iteration counter at the top of a loop pass. -/
def bumpIter (st : LoopSt) : LoopSt :=
  { st with iterations := st.iterations + 1 }

/-- Ghost record of one poll of the abort flag. -/
def recordPoll (b : Bool) (st : LoopSt) : LoopSt :=
  { st with pollCount := st.pollCount + 1, trace := st.trace ++ [.poll b] }

/-- The in-place reassignment `currentMessages = trimOlderToolResults(currentMessages)`. -/
def trimmedState (st : LoopSt) : LoopSt :=
  { st with currentMessages := trimOlderToolResults st.currentMessages }

/-- Bookkeeping after an LLM response: remember it as the last response
and accumulate its usage (plus the ghost call log). -/
def afterLlm (resp : Response) (st : LoopSt) : LoopSt :=
  { st with
    lastResponse := some resp,
    totalInputTokens := st.totalInputTokens + resp.input_tokens,
    totalOutputTokens := st.totalOutputTokens + resp.output_tokens,
    trace := st.trace ++ [.llmCall],
    llmLog := st.llmLog ++ [st.currentMessages] }

/-- Append the assistant response to the conversation. -/
def withAssistant (resp : Response) (st : LoopSt) : LoopSt :=
  { st with
    currentMessages := st.currentMessages ++ [⟨.assistant, .blocks resp.content⟩] }

/-- Append the tool results of a finished round plus the status note as
one user message. -/
def appendRound (cfg : Config) (stacc : LoopSt × List ContentBlock) : LoopSt :=
  let note := statusNoteText cfg.claudeModel stacc.1.iterations cfg.maxToolIterations
    stacc.1.totalInputTokens stacc.1.totalOutputTokens
  { stacc.1 with
    currentMessages := stacc.1.currentMessages ++
      [⟨.user, .blocks (stacc.2 ++ [ContentBlock.text note])⟩] }

/-- The while loop of `callClaude`.  The source condition is
`iterations < maxToolIterations` with `iterations` incremented once at
the top of every pass and never changed elsewhere, so with
`fuel = maxToolIterations - iterations` at entry the condition holds
exactly when `fuel > 0`; the structural `fuel` makes the recursion
kernel-reducible. -/
def loopGo (env : Env) (cfg : Config) : Nat → LoopSt → Except String (LoopSt × ExitKind)
  | 0, st => .ok (st, .maxedOut)
  | fuel + 1, st =>
    let st1 := bumpIter st
    let ab := abortRead env.abortFrom st1.pollCount
    let st2 := recordPoll ab st1
    if ab then .ok (st2, .abortTop)
    else
      let st3 := trimmedState st2
      match env.llm true st3.llmLog.length st3.currentMessages with
      | .error e => .error e
      | .ok resp =>
        let st4 := afterLlm resp st3
        if resp.stop_reason ≠ "tool_use" then .ok (st4, .endTurn)
        else
          let stacc := runTools env (toolUseBlocksOf resp.content) (withAssistant resp st4) []
          let ab2 := abortRead env.abortFrom stacc.1.pollCount
          let st5 := recordPoll ab2 stacc.1
          if ab2 then .ok (st5, .abortTools)
          else loopGo env cfg fuel (appendRound cfg stacc)

/-- Instruction of the forced summary call. -/
def summaryInstruction : String :=
  "You have reached your tool iteration limit. Do NOT call any more tools. " ++
  "Summarize everything you have found so far and provide your best answer " ++
  "with the information you have gathered."

/-- Result of `callClaude` (response, iterations, accumulated usage,
tools used, PR context) extended with ghost observables. -/
structure LoopResult where
  response : Option Response
  iterations : Nat
  totalInputTokens : Nat
  totalOutputTokens : Nat
  toolsUsed : List String
  prContext : Option PrContext
  exitKind : ExitKind
  summaryIssued : Bool
  finalMessages : List Message
  trace : List Ev
  llmLog : List (List Message)
  execLog : List (String × Json)

/-- Number of LLM calls actually made during the run (main loop plus
forced summary): each call logs its request messages. -/
def llmCalls (r : LoopResult) : Nat := r.llmLog.length

/-- The main tool-use loop.  The caller history is cut to its last
`MAX_HISTORY_MESSAGES` entries, the while loop runs, and when the
iteration counter has reached the configured maximum a forced summary
call without tools is issued and replaces the last response. -/
def callClaude (env : Env) (cfg : Config) (messages : List Message) :
    Except String LoopResult :=
  let recentHistory :=
    if MAX_HISTORY_MESSAGES < messages.length then
      messages.drop (messages.length - MAX_HISTORY_MESSAGES)
    else messages
  let st0 : LoopSt :=
    { currentMessages := recentHistory, iterations := 0, lastResponse := none,
      totalInputTokens := 0, totalOutputTokens := 0, toolsUsed := [],
      prContext := none, toolCache := [], pollCount := 0, execLog := [],
      trace := [], llmLog := [] }
  match loopGo env cfg cfg.maxToolIterations st0 with
  | .error e => .error e
  | .ok (st, ek) =>
    if cfg.maxToolIterations ≤ st.iterations then
      let st := { st with
        currentMessages := st.currentMessages ++ [Message.mk .user (.str summaryInstruction)] }
      let request := trimOlderToolResults st.currentMessages
      match env.llm false st.llmLog.length request with
      | .error e => .error e
      | .ok summaryResponse =>
        .ok { response := some summaryResponse,
              iterations := st.iterations,
              totalInputTokens := st.totalInputTokens + summaryResponse.input_tokens,
              totalOutputTokens := st.totalOutputTokens + summaryResponse.output_tokens,
              toolsUsed := st.toolsUsed,
              prContext := st.prContext,
              exitKind := ek,
              summaryIssued := true,
              finalMessages := st.currentMessages,
              trace := st.trace ++ [.summaryCall],
              llmLog := st.llmLog ++ [request],
              execLog := st.execLog }
    else
      .ok { response := st.lastResponse,
            iterations := st.iterations,
            totalInputTokens := st.totalInputTokens,
            totalOutputTokens := st.totalOutputTokens,
            toolsUsed := st.toolsUsed,
            prContext := st.prContext,
            exitKind := ek,
            summaryIssued := false,
            finalMessages := st.currentMessages,
            trace := st.trace,
            llmLog := st.llmLog,
            execLog := st.execLog }

/-- Terminal states of the loop as the specification names them. -/
inductive TerminalState where
  | Completed
  | Aborted
  | BudgetExhausted
deriving DecidableEq

/-- Classification of a finished run: abort observations dominate,
otherwise a run that triggered the forced summary is budget-exhausted,
otherwise it completed with a tool-free response. -/
def terminalOf (r : LoopResult) : TerminalState :=
  match r.exitKind with
  | .abortTop => .Aborted
  | .abortTools => .Aborted
  | _ => if r.summaryIssued then .BudgetExhausted else .Completed

/-! Trace analysis: predicates over the ghost event trace used to state
the cancellation claims. -/

/-- Events the loop is forbidden to produce after observing the abort
flag: main-loop LLM calls and Tool Executor invocations. -/
def isWorkEv : Ev → Bool
  | .llmCall => true
  | .toolExec _ => true
  | _ => false

def isSummaryEv : Ev → Bool
  | .summaryCall => true
  | _ => false

/-- Whether some poll of the abort flag returned `true`. -/
def sawAbort (evs : List Ev) : Bool :=
  evs.any (fun e => e = .poll true)

def hasSummary (evs : List Ev) : Bool :=
  evs.any isSummaryEv

/-- Whether an event satisfying `p` occurs strictly after the first
poll of the abort flag that returned `true`. -/
def anyAfterAbort (p : Ev → Bool) : List Ev → Bool
  | [] => false
  | .poll true :: rest => rest.any p
  | _ :: rest => anyAfterAbort p rest

theorem abortRead_mono (f : Option Nat) (k j : Nat) (hkj : k ≤ j)
    (h : abortRead f k = true) : abortRead f j = true := by
  cases f with
  | none => simp [abortRead] at h
  | some a =>
    simp only [abortRead, decide_eq_true_eq] at h ⊢
    omega

theorem anyAfterAbort_append (p : Ev → Bool) (a b : List Ev) :
    anyAfterAbort p (a ++ b) =
      (anyAfterAbort p a || (sawAbort a && b.any p) ||
        (!sawAbort a && anyAfterAbort p b)) := by
  induction a with
  | nil => simp [anyAfterAbort, sawAbort]
  | cons e rest ih =>
    match e with
    | .poll true =>
      simp [anyAfterAbort, sawAbort, List.any_append]
    | .poll false =>
      simp only [List.cons_append, anyAfterAbort, sawAbort, List.any_cons]
      simpa [sawAbort] using ih
    | .llmCall =>
      simp only [List.cons_append, anyAfterAbort, sawAbort, List.any_cons]
      simpa [sawAbort] using ih
    | .toolExec n =>
      simp only [List.cons_append, anyAfterAbort, sawAbort, List.any_cons]
      simpa [sawAbort] using ih
    | .summaryCall =>
      simp only [List.cons_append, anyAfterAbort, sawAbort, List.any_cons]
      simpa [sawAbort] using ih

theorem anyAfterAbort_of_not_saw (p : Ev → Bool) (t : List Ev)
    (h : sawAbort t = false) : anyAfterAbort p t = false := by
  induction t with
  | nil => rfl
  | cons e rest ih =>
    simp only [sawAbort, List.any_cons, Bool.or_eq_false_iff] at h
    match e with
    | .poll true => simp at h
    | .poll false => exact ih (by simpa [sawAbort] using h.2)
    | .llmCall => exact ih (by simpa [sawAbort] using h.2)
    | .toolExec n => exact ih (by simpa [sawAbort] using h.2)
    | .summaryCall => exact ih (by simpa [sawAbort] using h.2)

theorem anyAfterAbort_of_none (p : Ev → Bool) (t : List Ev)
    (h : t.any p = false) : anyAfterAbort p t = false := by
  induction t with
  | nil => rfl
  | cons e rest ih =>
    simp only [List.any_cons, Bool.or_eq_false_iff] at h
    match e with
    | .poll true => simpa [anyAfterAbort] using h.2
    | .poll false => exact ih h.2
    | .llmCall => exact ih h.2
    | .toolExec n => exact ih h.2
    | .summaryCall => exact ih h.2

/-! Cache lemmas. -/

theorem cacheGet_some_has (m : List (String × String)) (k : String) (v : String)
    (h : cacheGet m k = some v) : cacheHas m k = true := by
  unfold cacheGet at h
  unfold cacheHas
  cases hf : m.find? (fun p => p.1 = k) with
  | none => rw [hf] at h; simp at h
  | some p =>
    have := List.find?_some hf
    have hmem := List.mem_of_find?_eq_some hf
    simp only [List.any_eq_true]
    exact ⟨p, hmem, this⟩

theorem find?_map_set (m : List (String × String)) (k v : String)
    (h : m.any (fun p => p.1 = k) = true) :
    (m.map (fun p => if p.1 = k then (k, v) else p)).find? (fun p => p.1 = k) =
      some (k, v) := by
  induction m with
  | nil => simp at h
  | cons p rest ih =>
    by_cases hp : p.1 = k
    · simp [List.find?, hp]
    · simp only [List.any_cons, Bool.or_eq_true, decide_eq_true_eq] at h
      rcases h with h1 | h2
      · exact absurd h1 hp
      · simp only [List.map_cons, if_neg hp]
        rw [List.find?]
        simp only [hp, decide_eq_false_iff_not, not_false_eq_true]
        simpa [hp] using ih h2

theorem find?_append_of_none {α : Type} (p : α → Bool) (l1 l2 : List α)
    (h : l1.find? p = none) : (l1 ++ l2).find? p = l2.find? p := by
  induction l1 with
  | nil => rfl
  | cons x rest ih =>
    rw [List.find?] at h
    cases hx : p x with
    | true => rw [hx] at h; simp at h
    | false =>
      rw [hx] at h
      simp only [List.cons_append]
      rw [List.find?, hx]
      exact ih h

theorem cacheGet_cacheSet_self (m : List (String × String)) (k v : String) :
    cacheGet (cacheSet m k v) k = some v := by
  unfold cacheSet
  split
  · rename_i hhas
    unfold cacheHas at hhas
    unfold cacheGet
    rw [find?_map_set m k v hhas]
    rfl
  · rename_i hhas
    unfold cacheHas at hhas
    simp only [Bool.not_eq_true] at hhas
    unfold cacheGet
    have hnone : m.find? (fun p => p.1 = k) = none := by
      rw [List.find?_eq_none]
      intro x hx
      simp only [Bool.not_eq_true]
      by_contra hc
      simp only [Bool.not_eq_false] at hc
      have : m.any (fun p => decide (p.1 = k)) = true :=
        List.any_eq_true.mpr ⟨x, hx, hc⟩
      rw [this] at hhas
      simp at hhas
    rw [find?_append_of_none _ m [(k, v)] hnone]
    simp [List.find?]

/-! Frame lemmas: which parts of the state the per-round helpers leave
untouched. -/

theorem processTool_frame (env : Env) (tu : ToolUse) (st : LoopSt)
    (acc : List ContentBlock) :
    (processTool env tu st acc).1.currentMessages = st.currentMessages ∧
    (processTool env tu st acc).1.iterations = st.iterations ∧
    (processTool env tu st acc).1.lastResponse = st.lastResponse ∧
    (processTool env tu st acc).1.llmLog = st.llmLog ∧
    (processTool env tu st acc).1.totalInputTokens = st.totalInputTokens ∧
    (processTool env tu st acc).1.totalOutputTokens = st.totalOutputTokens ∧
    (processTool env tu st acc).1.pollCount = st.pollCount := by
  unfold processTool
  dsimp only
  split
  · simp
  · split <;> simp

theorem processTool_trace (env : Env) (tu : ToolUse) (st : LoopSt)
    (acc : List ContentBlock) :
    (processTool env tu st acc).1.trace = st.trace ∨
    (processTool env tu st acc).1.trace = st.trace ++ [.toolExec tu.name] := by
  unfold processTool
  dsimp only
  split
  · left; simp
  · split <;> (right; simp)

theorem sawAbort_append (a b : List Ev) :
    sawAbort (a ++ b) = (sawAbort a || sawAbort b) := by
  simp [sawAbort, List.any_append]

theorem hasSummary_append (a b : List Ev) :
    hasSummary (a ++ b) = (hasSummary a || hasSummary b) := by
  simp [hasSummary, List.any_append]

theorem runTools_frame (env : Env) (l : List ToolUse) (st : LoopSt)
    (acc : List ContentBlock) :
    (runTools env l st acc).1.currentMessages = st.currentMessages ∧
    (runTools env l st acc).1.iterations = st.iterations ∧
    (runTools env l st acc).1.lastResponse = st.lastResponse ∧
    (runTools env l st acc).1.llmLog = st.llmLog ∧
    (runTools env l st acc).1.totalInputTokens = st.totalInputTokens ∧
    (runTools env l st acc).1.totalOutputTokens = st.totalOutputTokens := by
  induction l generalizing st acc with
  | nil => exact ⟨rfl, rfl, rfl, rfl, rfl, rfl⟩
  | cons tu rest ih =>
    have hp := processTool_frame env tu st acc
    simp only [runTools]
    split
    · exact ⟨hp.1, hp.2.1, hp.2.2.1, hp.2.2.2.1, hp.2.2.2.2.1, hp.2.2.2.2.2.1⟩
    · exact ⟨(ih _ _).1.trans hp.1, (ih _ _).2.1.trans hp.2.1,
        (ih _ _).2.2.1.trans hp.2.2.1, (ih _ _).2.2.2.1.trans hp.2.2.2.1,
        (ih _ _).2.2.2.2.1.trans hp.2.2.2.2.1,
        (ih _ _).2.2.2.2.2.trans hp.2.2.2.2.2.1⟩

theorem runTools_trace (env : Env) (l : List ToolUse) (st : LoopSt)
    (acc : List ContentBlock) (hsaw : sawAbort st.trace = false) :
    anyAfterAbort isWorkEv (runTools env l st acc).1.trace = false ∧
    (sawAbort (runTools env l st acc).1.trace = true →
       abortRead env.abortFrom (runTools env l st acc).1.pollCount = true) ∧
    (hasSummary st.trace = false → hasSummary (runTools env l st acc).1.trace = false) := by
  induction l generalizing st acc with
  | nil =>
    refine ⟨anyAfterAbort_of_not_saw _ _ hsaw, ?_, fun h => h⟩
    intro h
    rw [runTools] at h
    rw [hsaw] at h
    exact absurd h (by simp)
  | cons tu rest ih =>
    have hp := processTool_frame env tu st acc
    have htr := processTool_trace env tu st acc
    have hsaw1 : sawAbort (processTool env tu st acc).1.trace = false := by
      rcases htr with h | h <;> rw [h]
      · exact hsaw
      · rw [sawAbort_append, hsaw]
        simp [sawAbort]
    have hsum1 : hasSummary st.trace = false →
        hasSummary (processTool env tu st acc).1.trace = false := by
      intro hs
      rcases htr with h | h <;> rw [h]
      · exact hs
      · rw [hasSummary_append, hs]
        simp [hasSummary, isSummaryEv]
    simp only [runTools]
    split
    · rename_i hab
      refine ⟨?_, ?_, ?_⟩
      · dsimp only
        rw [hab, anyAfterAbort_append, anyAfterAbort_of_not_saw _ _ hsaw1, hsaw1]
        simp [anyAfterAbort]
      · intro _
        dsimp only
        exact abortRead_mono _ _ _ (Nat.le_succ _)
          (by rw [hp.2.2.2.2.2.2] at hab ⊢; exact hab)
      · intro hs
        dsimp only
        rw [hab, hasSummary_append, hsum1 hs]
        simp [hasSummary, isSummaryEv]
    · rename_i hab
      have hab2 : abortRead env.abortFrom (processTool env tu st acc).1.pollCount = false := by
        simpa using hab
      have hsaw2 : sawAbort ({ (processTool env tu st acc).1 with
          pollCount := (processTool env tu st acc).1.pollCount + 1,
          trace := (processTool env tu st acc).1.trace ++
            [Ev.poll (abortRead env.abortFrom (processTool env tu st acc).1.pollCount)] }).trace
          = false := by

        dsimp only
        rw [hab2, sawAbort_append, hsaw1]
        simp [sawAbort]
      have := ih _ (processTool env tu st acc).2 hsaw2
      refine ⟨this.1, this.2.1, ?_⟩
      intro hs
      refine this.2.2 ?_
      dsimp only
      rw [hab2, hasSummary_append, hsum1 hs]
      simp [hasSummary, isSummaryEv]

theorem runTools_currentMessages (env : Env) (l : List ToolUse) (st : LoopSt)
    (acc : List ContentBlock) :
    (runTools env l st acc).1.currentMessages = st.currentMessages :=
  (runTools_frame env l st acc).1

theorem runTools_iterations (env : Env) (l : List ToolUse) (st : LoopSt)
    (acc : List ContentBlock) :
    (runTools env l st acc).1.iterations = st.iterations :=
  (runTools_frame env l st acc).2.1

theorem runTools_lastResponse (env : Env) (l : List ToolUse) (st : LoopSt)
    (acc : List ContentBlock) :
    (runTools env l st acc).1.lastResponse = st.lastResponse :=
  (runTools_frame env l st acc).2.2.1

theorem runTools_llmLog (env : Env) (l : List ToolUse) (st : LoopSt)
    (acc : List ContentBlock) :
    (runTools env l st acc).1.llmLog = st.llmLog :=
  (runTools_frame env l st acc).2.2.2.1

theorem runTools_totalInputTokens (env : Env) (l : List ToolUse) (st : LoopSt)
    (acc : List ContentBlock) :
    (runTools env l st acc).1.totalInputTokens = st.totalInputTokens :=
  (runTools_frame env l st acc).2.2.2.2.1

theorem runTools_totalOutputTokens (env : Env) (l : List ToolUse) (st : LoopSt)
    (acc : List ContentBlock) :
    (runTools env l st acc).1.totalOutputTokens = st.totalOutputTokens :=
  (runTools_frame env l st acc).2.2.2.2.2

theorem runTools_pollCount (env : Env) (l : List ToolUse) (st : LoopSt)
    (acc : List ContentBlock) :
    st.pollCount ≤ (runTools env l st acc).1.pollCount := by
  induction l generalizing st acc with
  | nil => exact Nat.le_refl _
  | cons tu rest ih =>
    have hp := processTool_frame env tu st acc
    simp only [runTools]
    split
    · dsimp only
      rw [hp.2.2.2.2.2.2]
      exact Nat.le_succ _
    · refine Nat.le_trans ?_ (ih _ (processTool env tu st acc).2)
      dsimp only
      rw [hp.2.2.2.2.2.2]
      exact Nat.le_succ _

/-! Master invariants of the while loop, proved by induction on the
remaining fuel. -/

theorem loopGo_counts (env : Env) (cfg : Config) :
    ∀ (fuel : Nat) (st st' : LoopSt) (ek : ExitKind),
    loopGo env cfg fuel st = .ok (st', ek) →
    (st'.llmLog.length + st.iterations + (if ek = .abortTop then 1 else 0) =
       st'.iterations + st.llmLog.length) ∧
    st.iterations ≤ st'.iterations ∧ st'.iterations ≤ st.iterations + fuel ∧
    (ek = .maxedOut → st'.iterations = st.iterations + fuel) := by
  intro fuel
  induction fuel with
  | zero =>
    intro st st' ek h
    rw [loopGo] at h
    simp only [Except.ok.injEq, Prod.mk.injEq] at h
    obtain ⟨h1, h2⟩ := h
    subst h1
    subst h2
    refine ⟨by simp; omega, by omega, by omega, fun _ => by omega⟩
  | succ fuel ih =>
    intro st st' ek h
    rw [loopGo] at h
    dsimp only [bumpIter, recordPoll, trimmedState, afterLlm, withAssistant,
      appendRound] at h
    split at h
    · simp only [Except.ok.injEq, Prod.mk.injEq] at h
      obtain ⟨h1, h2⟩ := h
      subst h1
      subst h2
      dsimp only
      refine ⟨by simp; omega, by omega, by omega, by simp⟩
    · split at h
      · exact absurd h (by simp)
      · split at h
        · simp only [Except.ok.injEq, Prod.mk.injEq] at h
          obtain ⟨h1, h2⟩ := h
          subst h1
          subst h2
          dsimp only
          simp only [List.length_append, List.length_cons, List.length_nil]
          refine ⟨by simp; omega, by omega, by omega, by simp⟩
        · split at h
          · simp only [Except.ok.injEq, Prod.mk.injEq] at h
            obtain ⟨h1, h2⟩ := h
            subst h1
            subst h2
            dsimp only
            simp only [runTools_llmLog, runTools_iterations, List.length_append,
              List.length_cons, List.length_nil]
            refine ⟨by simp; omega, by omega, by omega, by simp⟩
          · have hIH := ih _ st' ek h
            simp only [runTools_llmLog, runTools_iterations, List.length_append,
              List.length_cons, List.length_nil] at hIH
            refine ⟨by omega, by omega, by omega, fun hm => by
              have := hIH.2.2.2 hm
              omega⟩

theorem loopGo_messages (env : Env) (cfg : Config) :
    ∀ (fuel : Nat) (st st' : LoopSt) (ek : ExitKind),
    loopGo env cfg fuel st = .ok (st', ek) →
    (st.currentMessages.length ≤ st'.currentMessages.length ∧
     st'.currentMessages.length + 2 * st.iterations ≤
       st.currentMessages.length + 2 * st'.iterations) ∧
    (∀ l ∈ st'.llmLog, l ∈ st.llmLog ∨ l.length ≤ st'.currentMessages.length) := by
  intro fuel
  induction fuel with
  | zero =>
    intro st st' ek h
    rw [loopGo] at h
    simp only [Except.ok.injEq, Prod.mk.injEq] at h
    obtain ⟨h1, h2⟩ := h
    subst h1
    subst h2
    exact ⟨⟨Nat.le_refl _, by omega⟩, fun l hl => Or.inl hl⟩
  | succ fuel ih =>
    intro st st' ek h
    rw [loopGo] at h
    dsimp only [bumpIter, recordPoll, trimmedState, afterLlm, withAssistant,
      appendRound] at h
    split at h
    · simp only [Except.ok.injEq, Prod.mk.injEq] at h
      obtain ⟨h1, h2⟩ := h
      subst h1
      subst h2
      dsimp only
      exact ⟨⟨Nat.le_refl _, by omega⟩, fun l hl => Or.inl hl⟩
    · split at h
      · exact absurd h (by simp)
      · split at h
        · simp only [Except.ok.injEq, Prod.mk.injEq] at h
          obtain ⟨h1, h2⟩ := h
          subst h1
          subst h2
          dsimp only
          simp only [trimOlderToolResults_length]
          refine ⟨⟨Nat.le_refl _, by omega⟩, fun l hl => ?_⟩
          rw [List.mem_append] at hl
          rcases hl with hl | hl
          · exact Or.inl hl
          · simp only [List.mem_singleton] at hl
            subst hl
            exact Or.inr (by rw [trimOlderToolResults_length])
        · split at h
          · simp only [Except.ok.injEq, Prod.mk.injEq] at h
            obtain ⟨h1, h2⟩ := h
            subst h1
            subst h2
            dsimp only
            simp only [runTools_llmLog, runTools_currentMessages, runTools_iterations,
              List.length_append, List.length_cons, List.length_nil,
              trimOlderToolResults_length]
            refine ⟨⟨by omega, by omega⟩, fun l hl => ?_⟩
            rw [List.mem_append] at hl
            rcases hl with hl | hl
            · exact Or.inl hl
            · simp only [List.mem_singleton] at hl
              subst hl
              exact Or.inr (by rw [trimOlderToolResults_length]; omega)
          · have hIH := ih _ st' ek h
            simp only [runTools_llmLog, runTools_currentMessages, runTools_iterations,
              List.length_append, List.length_cons, List.length_nil,
              trimOlderToolResults_length] at hIH
            obtain ⟨⟨hm1, hm2⟩, hlog⟩ := hIH
            refine ⟨⟨by omega, by omega⟩, fun l hl => ?_⟩
            rcases hlog l hl with hl2 | hl2
            · rw [List.mem_append] at hl2
              rcases hl2 with hl2 | hl2
              · exact Or.inl hl2
              · simp only [List.mem_singleton] at hl2
                subst hl2
                exact Or.inr (by rw [trimOlderToolResults_length]; omega)
            · exact Or.inr hl2

theorem bumpIter_trace (st : LoopSt) : (bumpIter st).trace = st.trace := rfl

theorem bumpIter_pollCount (st : LoopSt) : (bumpIter st).pollCount = st.pollCount := rfl

theorem recordPoll_trace (b : Bool) (st : LoopSt) :
    (recordPoll b st).trace = st.trace ++ [.poll b] := rfl

theorem recordPoll_pollCount (b : Bool) (st : LoopSt) :
    (recordPoll b st).pollCount = st.pollCount + 1 := rfl

theorem trimmedState_trace (st : LoopSt) : (trimmedState st).trace = st.trace := rfl

theorem afterLlm_trace (resp : Response) (st : LoopSt) :
    (afterLlm resp st).trace = st.trace ++ [.llmCall] := rfl

theorem withAssistant_trace (resp : Response) (st : LoopSt) :
    (withAssistant resp st).trace = st.trace := rfl

theorem appendRound_trace (cfg : Config) (stacc : LoopSt × List ContentBlock) :
    (appendRound cfg stacc).trace = stacc.1.trace := rfl

theorem withAssistant_currentMessages (resp : Response) (st : LoopSt) :
    (withAssistant resp st).currentMessages =
      st.currentMessages ++ [⟨.assistant, .blocks resp.content⟩] := rfl

theorem loopGo_trace (env : Env) (cfg : Config) :
    ∀ (fuel : Nat) (st st' : LoopSt) (ek : ExitKind),
    loopGo env cfg fuel st = .ok (st', ek) →
    sawAbort st.trace = false →
    anyAfterAbort isWorkEv st'.trace = false ∧
    (hasSummary st.trace = false → hasSummary st'.trace = false) := by
  intro fuel
  induction fuel with
  | zero =>
    intro st st' ek h hsaw
    rw [loopGo] at h
    simp only [Except.ok.injEq, Prod.mk.injEq] at h
    obtain ⟨h1, h2⟩ := h
    subst h1
    subst h2
    exact ⟨anyAfterAbort_of_not_saw _ _ hsaw, fun hs => hs⟩
  | succ fuel ih =>
    intro st st' ek h hsaw
    rw [loopGo] at h
    dsimp only at h
    simp only [bumpIter_pollCount] at h
    split at h
    · rename_i hab
      simp only [Except.ok.injEq, Prod.mk.injEq] at h
      obtain ⟨h1, h2⟩ := h
      subst h1
      subst h2
      constructor
      · rw [recordPoll_trace, bumpIter_trace, hab, anyAfterAbort_append,
          anyAfterAbort_of_not_saw _ _ hsaw, hsaw]
        simp [anyAfterAbort]
      · intro hs
        rw [recordPoll_trace, bumpIter_trace, hasSummary_append, hs]
        simp [hasSummary, isSummaryEv]
    · rename_i hab
      have habf : abortRead env.abortFrom st.pollCount = false := by simpa using hab
      split at h
      · exact absurd h (by simp)
      · rename_i resp hllm
        have hsaw3 : sawAbort (afterLlm resp (trimmedState (recordPoll
            (abortRead env.abortFrom st.pollCount) (bumpIter st)))).trace = false := by
          rw [afterLlm_trace, trimmedState_trace, recordPoll_trace, bumpIter_trace, habf,
            sawAbort_append, sawAbort_append, hsaw]
          simp [sawAbort]
        have hsum3 : hasSummary st.trace = false →
            hasSummary (afterLlm resp (trimmedState (recordPoll
              (abortRead env.abortFrom st.pollCount) (bumpIter st)))).trace = false := by
          intro hs
          rw [afterLlm_trace, trimmedState_trace, recordPoll_trace, bumpIter_trace,
            hasSummary_append, hasSummary_append, hs]
          simp [hasSummary, isSummaryEv]
        split at h
        · simp only [Except.ok.injEq, Prod.mk.injEq] at h
          obtain ⟨h1, h2⟩ := h
          subst h1
          subst h2
          exact ⟨anyAfterAbort_of_not_saw _ _ hsaw3, hsum3⟩
        · have hsawA : sawAbort (withAssistant resp (afterLlm resp (trimmedState
              (recordPoll (abortRead env.abortFrom st.pollCount) (bumpIter st))))).trace
              = false := by
            rw [withAssistant_trace]
            exact hsaw3
          have hRT := runTools_trace env (toolUseBlocksOf resp.content)
            (withAssistant resp (afterLlm resp (trimmedState
              (recordPoll (abortRead env.abortFrom st.pollCount) (bumpIter st))))) [] hsawA
          split at h
          · rename_i hab2
            simp only [Except.ok.injEq, Prod.mk.injEq] at h
            obtain ⟨h1, h2⟩ := h
            subst h1
            subst h2
            constructor
            · rw [recordPoll_trace, hab2, anyAfterAbort_append, hRT.1]
              simp [anyAfterAbort, isWorkEv]
            · intro hs
              rw [recordPoll_trace, hasSummary_append]
              rw [hRT.2.2 (by rw [withAssistant_trace]; exact hsum3 hs)]
              simp [hasSummary, isSummaryEv]
          · rename_i hab2
            have hab2f : abortRead env.abortFrom (runTools env (toolUseBlocksOf resp.content)
                (withAssistant resp (afterLlm resp (trimmedState
                  (recordPoll (abortRead env.abortFrom st.pollCount) (bumpIter st))))) []).1.pollCount
                = false := by simpa using hab2
            have hsawR : sawAbort (runTools env (toolUseBlocksOf resp.content)
                (withAssistant resp (afterLlm resp (trimmedState
                  (recordPoll (abortRead env.abortFrom st.pollCount) (bumpIter st))))) []).1.trace
                = false := by
              cases hsr : sawAbort (runTools env (toolUseBlocksOf resp.content)
                (withAssistant resp (afterLlm resp (trimmedState
                  (recordPoll (abortRead env.abortFrom st.pollCount) (bumpIter st))))) []).1.trace with
              | false => rfl
              | true =>
                have := hRT.2.1 hsr
                rw [hab2f] at this
                exact absurd this (by simp)
            have hsawNext : sawAbort (appendRound cfg (runTools env (toolUseBlocksOf resp.content)
                (withAssistant resp (afterLlm resp (trimmedState
                  (recordPoll (abortRead env.abortFrom st.pollCount) (bumpIter st))))) [])).trace
                = false := by
              rw [appendRound_trace]
              exact hsawR
            refine ⟨(ih _ st' ek h hsawNext).1, fun hs => (ih _ st' ek h hsawNext).2 ?_⟩
            rw [appendRound_trace]
            exact hRT.2.2 (by rw [withAssistant_trace]; exact hsum3 hs)

theorem recordPoll_currentMessages (b : Bool) (st : LoopSt) :
    (recordPoll b st).currentMessages = st.currentMessages := rfl

theorem afterLlm_lastResponse (resp : Response) (st : LoopSt) :
    (afterLlm resp st).lastResponse = some resp := rfl

theorem getLast?_append_one (l : List Message) (m : Message) :
    (l ++ [m]).getLast? = some m := by
  induction l with
  | nil => rfl
  | cons a rest ih =>
    rw [List.cons_append, List.getLast?_cons, ih]
    rfl

theorem loopGo_lastResponse (env : Env) (cfg : Config) :
    ∀ (fuel : Nat) (st st' : LoopSt) (ek : ExitKind),
    loopGo env cfg fuel st = .ok (st', ek) →
    ek = .endTurn →
    ∃ resp, st'.lastResponse = some resp ∧ ¬ resp.stop_reason = "tool_use" := by
  intro fuel
  induction fuel with
  | zero =>
    intro st st' ek h hek
    rw [loopGo] at h
    simp only [Except.ok.injEq, Prod.mk.injEq] at h
    obtain ⟨h1, h2⟩ := h
    subst h1
    subst h2
    simp at hek
  | succ fuel ih =>
    intro st st' ek h hek
    rw [loopGo] at h
    dsimp only at h
    split at h
    · simp only [Except.ok.injEq, Prod.mk.injEq] at h
      obtain ⟨h1, h2⟩ := h
      subst h1
      subst h2
      simp at hek
    · split at h
      · exact absurd h (by simp)
      · rename_i resp hllm
        split at h
        · rename_i hstop
          simp only [Except.ok.injEq, Prod.mk.injEq] at h
          obtain ⟨h1, h2⟩ := h
          subst h1
          subst h2
          exact ⟨resp, afterLlm_lastResponse resp _, hstop⟩
        · split at h
          · simp only [Except.ok.injEq, Prod.mk.injEq] at h
            obtain ⟨h1, h2⟩ := h
            subst h1
            subst h2
            simp at hek
          · exact ih _ st' ek h hek

theorem loopGo_abortToolsLast (env : Env) (cfg : Config) :
    ∀ (fuel : Nat) (st st' : LoopSt) (ek : ExitKind),
    loopGo env cfg fuel st = .ok (st', ek) →
    ek = .abortTools →
    (st'.currentMessages.getLast?).map Message.role = some .assistant := by
  intro fuel
  induction fuel with
  | zero =>
    intro st st' ek h hek
    rw [loopGo] at h
    simp only [Except.ok.injEq, Prod.mk.injEq] at h
    obtain ⟨h1, h2⟩ := h
    subst h1
    subst h2
    simp at hek
  | succ fuel ih =>
    intro st st' ek h hek
    rw [loopGo] at h
    dsimp only at h
    split at h
    · simp only [Except.ok.injEq, Prod.mk.injEq] at h
      obtain ⟨h1, h2⟩ := h
      subst h1
      subst h2
      simp at hek
    · split at h
      · exact absurd h (by simp)
      · rename_i resp hllm
        split at h
        · simp only [Except.ok.injEq, Prod.mk.injEq] at h
          obtain ⟨h1, h2⟩ := h
          subst h1
          subst h2
          simp at hek
        · split at h
          · simp only [Except.ok.injEq, Prod.mk.injEq] at h
            obtain ⟨h1, h2⟩ := h
            subst h1
            subst h2
            rw [recordPoll_currentMessages, runTools_currentMessages,
              withAssistant_currentMessages, getLast?_append_one]
            rfl
          · exact ih _ st' ek h hek

theorem loopGo_isOk (env : Env) (cfg : Config)
    (hllm : ∀ b n m, ∃ resp, env.llm b n m = .ok resp) :
    ∀ (fuel : Nat) (st : LoopSt), ∃ out, loopGo env cfg fuel st = .ok out := by
  intro fuel
  induction fuel with
  | zero => intro st; exact ⟨(st, .maxedOut), rfl⟩
  | succ fuel ih =>
    intro st
    rw [loopGo]
    dsimp only
    split
    · exact ⟨_, rfl⟩
    · obtain ⟨resp, hresp⟩ := hllm true _ _
      rw [hresp]
      dsimp only
      split
      · exact ⟨_, rfl⟩
      · split
        · exact ⟨_, rfl⟩
        · exact ih _

/-- Number of messages kept from the caller history. -/
theorem recentHistory_length (messages : List Message) :
    (if MAX_HISTORY_MESSAGES < messages.length then
        messages.drop (messages.length - MAX_HISTORY_MESSAGES)
      else messages).length = min messages.length MAX_HISTORY_MESSAGES := by
  split
  · rw [List.length_drop]
    omega
  · omega

/-- C3 (amended form): the returned `iterations` counts loop passes, not
LLM calls: runs aborted at the top of a pass made one call fewer, and
the forced summary call is never counted. -/
theorem C3_amended_iterations_vs_calls :
    ∀ (env : Env) (cfg : Config) (messages : List Message) (r : LoopResult),
    callClaude env cfg messages = .ok r →
    llmCalls r + (if r.exitKind = .abortTop then 1 else 0) =
      r.iterations + (if r.summaryIssued then 1 else 0) := by
  intro env cfg messages r h
  unfold callClaude at h
  dsimp only at h
  split at h
  · exact absurd h (by simp)
  rename_i st ek heq
  have hc := loopGo_counts env cfg cfg.maxToolIterations _ st ek heq
  dsimp only at hc
  split at h
  · split at h
    · exact absurd h (by simp)
    · simp only [Except.ok.injEq] at h
      subst h
      simp only [llmCalls, List.length_append, List.length_cons, List.length_nil]
      dsimp only
      cases ek <;> simp at hc ⊢ <;> omega
  · simp only [Except.ok.injEq] at h
    subst h
    simp only [llmCalls]
    dsimp only
    cases ek <;> simp at hc ⊢ <;> omega

/-- C1 (amended form): the forced summary call is issued exactly when the
loop exits with the iteration counter at the configured maximum,
regardless of whether the final response was tool-free or the run was
aborted; a tool-free response at an iteration strictly below the maximum
returns that response with no additional LLM call. -/
theorem C1_amended_summary_on_iteration_cap :
    ∀ (env : Env) (cfg : Config) (messages : List Message) (r : LoopResult),
    callClaude env cfg messages = .ok r →
    r.summaryIssued = decide (cfg.maxToolIterations ≤ r.iterations) ∧
    (r.exitKind = .endTurn → r.iterations < cfg.maxToolIterations →
      r.summaryIssued = false ∧ llmCalls r = r.iterations ∧
      ∃ resp, r.response = some resp ∧ ¬ resp.stop_reason = "tool_use") := by
  intro env cfg messages r h
  unfold callClaude at h
  dsimp only at h
  split at h
  · exact absurd h (by simp)
  rename_i st ek heq
  have hc := loopGo_counts env cfg cfg.maxToolIterations _ st ek heq
  dsimp only at hc
  have hlr := loopGo_lastResponse env cfg cfg.maxToolIterations _ st ek heq
  split at h
  · rename_i hmax
    split at h
    · exact absurd h (by simp)
    · simp only [Except.ok.injEq] at h
      subst h
      constructor
      · dsimp only
        simp [hmax]
      · intro _ hlt
        dsimp only at hlt
        omega
  · rename_i hmax
    simp only [Except.ok.injEq] at h
    subst h
    constructor
    · dsimp only
      simp [hmax]
    · intro hek _
      dsimp only at hek ⊢
      subst hek
      refine ⟨rfl, ?_, hlr rfl⟩
      simp only [llmCalls]
      simp at hc
      omega

/-- C2 (amended form): after the first poll of the abort flag that reads
`true`, the loop performs no further tool execution and no further
main-loop LLM call; the only LLM call that can still follow an observed
abort is the forced summary call, which happens exactly when the abort
was observed with the iteration counter already at the maximum. -/
theorem C2_amended_no_work_after_abort :
    ∀ (env : Env) (cfg : Config) (messages : List Message) (r : LoopResult),
    callClaude env cfg messages = .ok r →
    anyAfterAbort isWorkEv r.trace = false ∧
    (anyAfterAbort isSummaryEv r.trace = true →
      r.summaryIssued = true ∧ cfg.maxToolIterations ≤ r.iterations) := by
  intro env cfg messages r h
  unfold callClaude at h
  dsimp only at h
  split at h
  · exact absurd h (by simp)
  rename_i st ek heq
  have ht := loopGo_trace env cfg cfg.maxToolIterations _ st ek heq (by simp [sawAbort])
  have hsum : hasSummary st.trace = false := ht.2 (by simp [hasSummary])
  split at h
  · rename_i hmax
    split at h
    · exact absurd h (by simp)
    · simp only [Except.ok.injEq] at h
      subst h
      dsimp only
      constructor
      · rw [anyAfterAbort_append, ht.1]
        simp [anyAfterAbort, isWorkEv]
      · intro _
        exact ⟨rfl, hmax⟩
  · simp only [Except.ok.injEq] at h
    subst h
    dsimp only
    refine ⟨ht.1, ?_⟩
    intro habs
    have hna : st.trace.any isSummaryEv = false := hsum
    rw [anyAfterAbort_of_none _ _ hna] at habs
    exact absurd habs (by simp)

/-- C4 (amended form): the loop caps only the starting history at
`MAX_HISTORY_MESSAGES` entries and then grows the conversation by two
messages per tool round (plus the summary instruction), so every request
sent to the LLM has at most
`min |history| MAX_HISTORY_MESSAGES + 2 * maxToolIterations + 1`
messages; no User-first invariant is enforced. -/
theorem C4_amended_request_size_bound :
    ∀ (env : Env) (cfg : Config) (messages : List Message) (r : LoopResult),
    callClaude env cfg messages = .ok r →
    ∀ l ∈ r.llmLog,
      l.length ≤ min messages.length MAX_HISTORY_MESSAGES +
        2 * cfg.maxToolIterations + 1 := by
  intro env cfg messages r h l hl
  unfold callClaude at h
  dsimp only at h
  split at h
  · exact absurd h (by simp)
  rename_i st ek heq
  have hm := loopGo_messages env cfg cfg.maxToolIterations _ st ek heq
  have hc := loopGo_counts env cfg cfg.maxToolIterations _ st ek heq
  dsimp only at hm hc
  rw [recentHistory_length messages] at hm
  have hcur : st.currentMessages.length ≤
      min messages.length MAX_HISTORY_MESSAGES + 2 * cfg.maxToolIterations := by
    omega
  split at h
  · split at h
    · exact absurd h (by simp)
    · simp only [Except.ok.injEq] at h
      subst h
      dsimp only at hl
      rw [List.mem_append] at hl
      rcases hl with hl | hl
      · rcases hm.2 l hl with hl2 | hl2
        · exact absurd hl2 (List.not_mem_nil l)
        · omega
      · simp only [List.mem_singleton] at hl
        subst hl
        rw [trimOlderToolResults_length, List.length_append, List.length_cons,
          List.length_nil]
        omega
  · simp only [Except.ok.injEq] at h
    subst h
    dsimp only at hl
    rcases hm.2 l hl with hl2 | hl2
    · exact absurd hl2 (List.not_mem_nil l)
    · omega

/-- C6 (amended form): when the abort flag is observed between tool
executions, the loop returns immediately without appending the collected
`ToolResult` blocks of the interrupted round (and no abort marker
exists): unless the forced summary fires, the conversation still ends
with the assistant message that requested the tools. -/
theorem C6_amended_abort_discards_round :
    ∀ (env : Env) (cfg : Config) (messages : List Message) (r : LoopResult),
    callClaude env cfg messages = .ok r →
    r.exitKind = .abortTools → r.summaryIssued = false →
    (r.finalMessages.getLast?).map Message.role = some .assistant := by
  intro env cfg messages r h hek hsum
  unfold callClaude at h
  dsimp only at h
  split at h
  · exact absurd h (by simp)
  rename_i st ek heq
  split at h
  · split at h
    · exact absurd h (by simp)
    · simp only [Except.ok.injEq] at h
      subst h
      dsimp only at hsum
      exact absurd hsum (by simp)
  · simp only [Except.ok.injEq] at h
    subst h
    dsimp only at hek ⊢
    exact loopGo_abortToolsLast env cfg cfg.maxToolIterations _ st ek heq hek

/-- Every finished run classifies as one of the three terminal states. -/
theorem terminalOf_cases (r : LoopResult) :
    terminalOf r = .Completed ∨ terminalOf r = .Aborted ∨
      terminalOf r = .BudgetExhausted := by
  unfold terminalOf
  cases r.exitKind <;> dsimp only <;>
    first
      | (right; left; rfl)
      | (split
         · right; right; rfl
         · left; rfl)

/-- C7 (amended form): within one loop invocation, a repeated
`(name, input)` call for a non-exempt tool whose earlier execution
succeeded (and was therefore cached) does not invoke the Tool Executor
and returns the cached string with the cache-hit marker appended; a
successful cache-miss execution stores its result under the key; a tool
in the exemption set always invokes the Tool Executor again. -/
theorem C7_amended_dedup_cache :
    ∀ (env : Env) (tu : ToolUse) (st st2 : LoopSt) (acc acc2 : List ContentBlock)
      (v r : String),
    (cacheGet st.toolCache (cacheKey tu.name tu.input) = some v →
      CACHE_EXEMPT_TOOLS.contains tu.name = false →
      (processTool env tu st acc).1.execLog = st.execLog ∧
      (processTool env tu st acc).2 =
        acc ++ [.tool_result tu.id (truncateResult (v ++ cachedMarker))]) ∧
    (cacheHas st.toolCache (cacheKey tu.name tu.input) = false →
      env.exec st.execLog.length tu.name tu.input = .ok r →
      cacheGet (processTool env tu st acc).1.toolCache (cacheKey tu.name tu.input) =
        some r) ∧
    (CACHE_EXEMPT_TOOLS.contains tu.name = true →
      (processTool env tu st2 acc2).1.execLog = st2.execLog ++ [(tu.name, tu.input)]) := by
  intro env tu st st2 acc acc2 v r
  refine ⟨?_, ?_, ?_⟩
  · intro hhit hexempt
    have hhas := cacheGet_some_has _ _ _ hhit
    unfold processTool
    dsimp only
    rw [if_pos ⟨hhas, by rw [hexempt]; exact Bool.false_ne_true⟩]
    rw [hhit]
    exact ⟨rfl, rfl⟩
  · intro hmiss hok
    unfold processTool
    dsimp only
    rw [if_neg (by rw [hmiss]; exact fun hcon => Bool.false_ne_true hcon.1)]
    rw [hok]
    exact cacheGet_cacheSet_self _ _ _
  · intro hexempt
    unfold processTool
    dsimp only
    rw [if_neg (by rw [hexempt]; exact fun hcon => hcon.2 rfl)]
    cases hx : env.exec st2.execLog.length tu.name tu.input <;> rfl

/-- C8: with any Tool Executor, including one that throws on every
invocation, the loop function always returns a `LoopResult` as long as
the LLM client itself does not fail, the run classifies as Completed,
Aborted or BudgetExhausted, and a thrown tool error is converted into a
`ToolResult` block whose content is the error description string fed
back to the model. -/
theorem C8_error_containment :
    ∀ (env : Env) (cfg : Config) (messages : List Message) (tu : ToolUse)
      (st : LoopSt) (acc : List ContentBlock) (e : String),
    (∀ b n m, ∃ resp, env.llm b n m = .ok resp) →
    (∃ r, callClaude env cfg messages = .ok r ∧
      (terminalOf r = .Completed ∨ terminalOf r = .Aborted ∨
        terminalOf r = .BudgetExhausted)) ∧
    (cacheHas st.toolCache (cacheKey tu.name tu.input) = false →
      env.exec st.execLog.length tu.name tu.input = .error e →
      (processTool env tu st acc).2 =
        acc ++ [.tool_result tu.id (truncateResult ("Error: " ++ e))]) := by
  intro env cfg messages tu st acc e hllm
  constructor
  · obtain ⟨out, hout⟩ := loopGo_isOk env cfg hllm cfg.maxToolIterations
      { currentMessages :=
          if MAX_HISTORY_MESSAGES < messages.length then
            messages.drop (messages.length - MAX_HISTORY_MESSAGES)
          else messages,
        iterations := 0, lastResponse := none,
        totalInputTokens := 0, totalOutputTokens := 0, toolsUsed := [],
        prContext := none, toolCache := [], pollCount := 0, execLog := [],
        trace := [], llmLog := [] }
    obtain ⟨st2, ek⟩ := out
    unfold callClaude
    dsimp only
    rw [hout]
    dsimp only
    split
    · obtain ⟨resp, hresp⟩ := hllm false st2.llmLog.length
        (trimOlderToolResults (st2.currentMessages ++
          [Message.mk .user (.str summaryInstruction)]))
      rw [hresp]
      exact ⟨_, rfl, terminalOf_cases _⟩
    · exact ⟨_, rfl, terminalOf_cases _⟩
  · intro hmiss herr
    unfold processTool
    dsimp only
    rw [if_neg (by rw [hmiss]; exact fun hcon => Bool.false_ne_true hcon.1)]
    rw [herr]

/-- C9: compaction never rewrites the protected tail: for a conversation
longer than 4 messages the last 4 messages are byte-identical before and
after `trimOlderToolResults`, and only earlier messages can change. -/
theorem C9_compaction_preserves_tail (messages : List Message)
    (h : 4 < messages.length) :
    (trimOlderToolResults messages).length = messages.length ∧
    (trimOlderToolResults messages).drop (messages.length - 4) =
      messages.drop (messages.length - 4) :=
  ⟨trimOlderToolResults_length messages, trimOlderToolResults_drop messages⟩

/-- C10: a tool call whose execution throws stores nothing in the dedup
cache: on a cache miss the executor is always invoked, and when it
throws the cache is returned unchanged, so a later identical call is a
miss again and re-invokes the executor instead of being served the error
string. -/
theorem C10_errors_not_cached :
    ∀ (env : Env) (tu : ToolUse) (st : LoopSt) (acc : List ContentBlock) (e : String),
    cacheHas st.toolCache (cacheKey tu.name tu.input) = false →
    (processTool env tu st acc).1.execLog = st.execLog ++ [(tu.name, tu.input)] ∧
    (env.exec st.execLog.length tu.name tu.input = .error e →
      (processTool env tu st acc).1.toolCache = st.toolCache) := by
  intro env tu st acc e hmiss
  unfold processTool
  dsimp only
  rw [if_neg (by rw [hmiss]; exact fun hcon => Bool.false_ne_true hcon.1)]
  cases hx : env.exec st.execLog.length tu.name tu.input with
  | ok r =>
    refine ⟨rfl, fun herr => ?_⟩
    exact absurd herr (by simp)
  | error e2 => exact ⟨rfl, fun _ => rfl⟩

/-! Concrete runs used as counterexamples and witnesses. -/

/-- A typical tool input object. -/
def qIn : Json := .obj (.cons "q" (.str "x") .nil)

def respEnd : Response := ⟨[.text "42"], "end_turn", 1, 2⟩

def respSum : Response := ⟨[.text "sum"], "end_turn", 0, 0⟩

def respTools1 : Response := ⟨[.tool_use "1" "web_search" qIn], "tool_use", 5, 7⟩

def respTools2 : Response :=
  ⟨[.tool_use "1" "web_search" qIn, .tool_use "2" "web_search" qIn], "tool_use", 0, 0⟩

def respTools3 : Response :=
  ⟨[.tool_use "1" "web_search" qIn, .tool_use "2" "web_fetch" qIn,
    .tool_use "3" "web_fetch" qIn], "tool_use", 0, 0⟩

def msgsHi : List Message := [⟨.user, .str "hi"⟩]

def cfgMax1 : Config := ⟨"claude-sonnet-4-6", 1⟩
def cfgMax2 : Config := ⟨"claude-sonnet-4-6", 2⟩
def cfgMax3 : Config := ⟨"claude-sonnet-4-6", 3⟩
def cfgMax5 : Config := ⟨"claude-sonnet-4-6", 5⟩

/-- Fallback value so that a run result can be projected without an
existential; never reached on the concrete runs below. -/
def dummyResult : LoopResult :=
  { response := none, iterations := 0, totalInputTokens := 0,
    totalOutputTokens := 0, toolsUsed := [], prContext := none,
    exitKind := .maxedOut, summaryIssued := false, finalMessages := [],
    trace := [], llmLog := [], execLog := [] }

def resultOf (x : Except String LoopResult) : LoopResult :=
  match x with
  | .ok r => r
  | .error _ => dummyResult

def stEmpty : LoopSt :=
  { currentMessages := [], iterations := 0, lastResponse := none,
    totalInputTokens := 0, totalOutputTokens := 0, toolsUsed := [],
    prContext := none, toolCache := [], pollCount := 0, execLog := [],
    trace := [], llmLog := [] }

/-- Whether a message carries any `tool_result` block. -/
def msgHasToolResult (m : Message) : Bool :=
  match m.content with
  | .blocks bs => bs.any (fun b =>
      match b with
      | .tool_result _ _ => true
      | _ => false)
  | _ => false

/-- Model gives a tool-free answer already on the first call, with the
iteration cap set to 1. -/
def envC1ce : Env :=
  ⟨fun withTools _ _ => .ok (if withTools then respEnd else respSum),
   fun _ _ _ => .ok "r", none⟩

def rC1ce : LoopResult := resultOf (callClaude envC1ce cfgMax1 msgsHi)

/-- Abort flag already set at the very first poll, iteration cap 1. -/
def envC2ce : Env :=
  ⟨fun withTools _ _ => .ok (if withTools then respTools1 else respSum),
   fun _ _ _ => .ok "r", some 0⟩

def rC2ce : LoopResult := resultOf (callClaude envC2ce cfgMax1 msgsHi)

/-- Model keeps requesting tools, iteration cap 1. -/
def envC3ce : Env :=
  ⟨fun withTools _ _ => .ok (if withTools then respTools1 else respSum),
   fun _ _ _ => .ok "r", none⟩

def rC3ce : LoopResult := resultOf (callClaude envC3ce cfgMax1 msgsHi)

/-- One tool round, then a tool-free answer. -/
def envC4ce : Env :=
  ⟨fun _ n _ => .ok (if n == 0 then respTools1 else respEnd),
   fun _ _ _ => .ok "r", none⟩

/-- Eleven alternating history messages starting and ending with User. -/
def msgs11 : List Message :=
  [⟨.user, .str "a"⟩, ⟨.assistant, .str "b"⟩, ⟨.user, .str "c"⟩,
   ⟨.assistant, .str "d"⟩, ⟨.user, .str "e"⟩, ⟨.assistant, .str "f"⟩,
   ⟨.user, .str "g"⟩, ⟨.assistant, .str "h"⟩, ⟨.user, .str "i"⟩,
   ⟨.assistant, .str "j"⟩, ⟨.user, .str "k"⟩]

def rC4ce : LoopResult := resultOf (callClaude envC4ce cfgMax3 msgs11)

/-- Three tools requested in one round, abort observed after the first
tool finished. -/
def envC6ce : Env :=
  ⟨fun _ n _ => .ok (if n == 0 then respTools3 else respEnd),
   fun _ _ _ => .ok "done", some 1⟩

def rC6ce : LoopResult := resultOf (callClaude envC6ce cfgMax5 msgsHi)

/-- Two identical tool calls in one round with an executor that throws
on every invocation. -/
def envC7ce : Env :=
  ⟨fun _ n _ => .ok (if n == 0 then respTools2 else respEnd),
   fun _ _ _ => .error "boom", none⟩

def rC7ce : LoopResult := resultOf (callClaude envC7ce cfgMax2 msgsHi)

/-- One tool round, then a tool-free answer below the cap. -/
def envC1w : Env :=
  ⟨fun _ n _ => .ok (if n == 0 then respTools1 else respEnd),
   fun _ _ _ => .ok "r", none⟩

def rC1w : LoopResult := resultOf (callClaude envC1w cfgMax3 msgsHi)

/-- An always-throwing executor with a well-behaved LLM. -/
def envThrow : Env :=
  ⟨fun withTools _ _ => .ok (if withTools then respTools1 else respSum),
   fun _ _ _ => .error "boom", none⟩

def tuW : ToolUse := ⟨"1", "web_search", qIn⟩

def tuShell : ToolUse := ⟨"2", "shell", qIn⟩

def stHit : LoopSt :=
  { stEmpty with toolCache := [(cacheKey "web_search" qIn, "out")] }

def envExecOk : Env :=
  ⟨fun _ _ _ => .ok respEnd, fun _ _ _ => .ok "fresh", none⟩

def msgs5 : List Message :=
  [⟨.user, .str "a"⟩, ⟨.assistant, .str "b"⟩, ⟨.user, .str "c"⟩,
   ⟨.assistant, .str "d"⟩, ⟨.user, .str "e"⟩]

/-- Spec-side field lists for the cache-key order claim. -/
def fieldsAB : JsonFields := .cons "a" (.num 1) (.cons "b" (.num 2) .nil)

def fieldsBA : JsonFields := .cons "b" (.num 2) (.cons "a" (.num 1) .nil)

def jsonFieldsToList : JsonFields → List (String × Json)
  | .nil => []
  | .cons k v tl => (k, v) :: jsonFieldsToList tl

/-- Formalisation of the claim wording for logically identical input
maps: same key-value pairs regardless of key order. -/
def specLogicallyIdenticalInputs (f g : JsonFields) : Prop :=
  (jsonFieldsToList f).Perm (jsonFieldsToList g)

/-- C1 counterexample: with the cap at 1, the model answers tool-free on
the very first call, yet the loop still issues a second, forced-summary
LLM call and returns the summary response instead of the tool-free one. -/
theorem C1_counterexample :
    toolUseBlocksOf respEnd.content = [] ∧
    callClaude envC1ce cfgMax1 msgsHi = .ok rC1ce ∧
    llmCalls rC1ce = 2 ∧ rC1ce.summaryIssued = true ∧
    rC1ce.response = some respSum ∧ rC1ce.response ≠ some respEnd := by
  refine ⟨rfl, rfl, rfl, rfl, rfl, ?_⟩
  decide

/-- C1 witness for the amended theorem, on a run that completes
tool-free below the cap. -/
theorem C1_amended_witness :
    rC1w.summaryIssued = decide (cfgMax3.maxToolIterations ≤ rC1w.iterations) ∧
    (rC1w.exitKind = .endTurn → rC1w.iterations < cfgMax3.maxToolIterations →
      rC1w.summaryIssued = false ∧ llmCalls rC1w = rC1w.iterations ∧
      ∃ resp, rC1w.response = some resp ∧ ¬ resp.stop_reason = "tool_use") :=
  C1_amended_summary_on_iteration_cap envC1w cfgMax3 msgsHi rC1w rfl

/-- C2 counterexample: the abort flag is observed at the top of the
first (and by the cap, last) iteration, yet the loop still issues the
forced-summary LLM call after observing it. -/
theorem C2_counterexample :
    callClaude envC2ce cfgMax1 msgsHi = .ok rC2ce ∧
    rC2ce.trace = [.poll true, .summaryCall] ∧
    llmCalls rC2ce = 1 ∧
    anyAfterAbort isSummaryEv rC2ce.trace = true := by
  exact ⟨rfl, rfl, rfl, rfl⟩

/-- C2 witness for the amended theorem, on the aborted run. -/
theorem C2_amended_witness :
    anyAfterAbort isWorkEv rC2ce.trace = false ∧
    (anyAfterAbort isSummaryEv rC2ce.trace = true →
      rC2ce.summaryIssued = true ∧ cfgMax1.maxToolIterations ≤ rC2ce.iterations) :=
  C2_amended_no_work_after_abort envC2ce cfgMax1 msgsHi rC2ce rfl

/-- C3 counterexample: with the cap at 1 and a model that requests a
tool, the run makes 2 LLM calls (one round plus the forced summary) but
returns `iterations = 1`. -/
theorem C3_counterexample :
    callClaude envC3ce cfgMax1 msgsHi = .ok rC3ce ∧
    rC3ce.iterations = 1 ∧ llmCalls rC3ce = 2 := by
  exact ⟨rfl, rfl, rfl⟩

/-- C3 witness for the amended call-count equation. -/
theorem C3_amended_witness :
    llmCalls rC3ce + (if rC3ce.exitKind = .abortTop then 1 else 0) =
      rC3ce.iterations + (if rC3ce.summaryIssued then 1 else 0) :=
  C3_amended_iterations_vs_calls envC3ce cfgMax1 msgsHi rC3ce rfl

/-- C4 counterexample: an eleven-message alternating history is cut to
its last ten messages, so the first request starts with an Assistant
message; after one tool round the second request has 12 messages,
exceeding the configured ten-entry cap. -/
theorem C4_counterexample :
    MAX_HISTORY_MESSAGES = 10 ∧
    callClaude envC4ce cfgMax3 msgs11 = .ok rC4ce ∧
    rC4ce.llmLog.map List.length = [10, 12] ∧
    ((rC4ce.llmLog.headD []).headD ⟨.user, .str ""⟩).role = .assistant := by
  exact ⟨rfl, rfl, rfl, rfl⟩

/-- C4 witness for the amended size bound, applied to the first request
of the concrete run. -/
theorem C4_amended_witness :
    (rC4ce.llmLog.headD []).length ≤
      min msgs11.length MAX_HISTORY_MESSAGES + 2 * cfgMax3.maxToolIterations + 1 :=
  C4_amended_request_size_bound envC4ce cfgMax3 msgs11 rC4ce rfl
    (rC4ce.llmLog.headD []) (by decide)

/-- C5 counterexample: two logically identical input maps that differ
only in key order produce different cache keys, because the key uses the
insertion-ordered `JSON.stringify` serialization. -/
theorem C5_counterexample :
    specLogicallyIdenticalInputs fieldsAB fieldsBA ∧
    cacheKey "web_search" (.obj fieldsAB) ≠ cacheKey "web_search" (.obj fieldsBA) := by
  constructor
  · exact List.Perm.swap _ _ _
  · decide

/-- C5 (amended form): the cache key is determined by the tool name and
the byte-exact `JSON.stringify` serialization of the input: calls whose
serializations are byte-identical always collide, but key order is the
insertion order, not a canonical one. -/
theorem C5_amended_key_from_serialization :
    ∀ (name : String) (i1 i2 : Json),
    jsonStringify i1 = jsonStringify i2 → cacheKey name i1 = cacheKey name i2 := by
  intro name i1 i2 h
  unfold cacheKey
  rw [h]

/-- C5 witness for the amended statement. -/
theorem C5_amended_witness :
    jsonStringify (Json.obj fieldsAB) = jsonStringify (Json.obj fieldsAB) ∧
    cacheKey "web_search" (Json.obj fieldsAB) = cacheKey "web_search" (Json.obj fieldsAB) :=
  ⟨rfl, C5_amended_key_from_serialization "web_search" (Json.obj fieldsAB)
    (Json.obj fieldsAB) rfl⟩

/-- C6 counterexample: three tools requested, abort observed after the
first executed; the loop returns with the conversation ending in the
assistant message — no `ToolResult` block of the interrupted round and
no abort marker are appended. -/
theorem C6_counterexample :
    callClaude envC6ce cfgMax5 msgsHi = .ok rC6ce ∧
    (toolUseBlocksOf respTools3.content).length = 3 ∧
    rC6ce.execLog.length = 1 ∧
    rC6ce.exitKind = .abortTools ∧
    rC6ce.finalMessages.length = 2 ∧
    rC6ce.finalMessages.any msgHasToolResult = false := by
  exact ⟨rfl, rfl, rfl, rfl, rfl, rfl⟩

/-- C6 witness for the amended theorem on the same aborted round. -/
theorem C6_amended_witness :
    (rC6ce.finalMessages.getLast?).map Message.role = some .assistant :=
  C6_amended_abort_discards_round envC6ce cfgMax5 msgsHi rC6ce rfl rfl rfl

/-- C7 counterexample: two calls with identical name and input of a
non-exempt tool, whose first execution throws: the error is not cached,
so the second call invokes the Tool Executor again, contrary to the
unconditional claim. -/
theorem C7_counterexample :
    CACHE_EXEMPT_TOOLS.contains "web_search" = false ∧
    callClaude envC7ce cfgMax2 msgsHi = .ok rC7ce ∧
    rC7ce.execLog = [("web_search", qIn), ("web_search", qIn)] := by
  exact ⟨rfl, rfl, rfl⟩

/-- C7 witness: a cached hit skips the executor and returns the marked
cached string; a successful miss stores its result; an exempt tool
executes again. -/
theorem C7_amended_witness :
    (cacheGet stHit.toolCache (cacheKey "web_search" qIn) = some "out" ∧
     CACHE_EXEMPT_TOOLS.contains "web_search" = false ∧
     (processTool envExecOk tuW stHit []).1.execLog = stHit.execLog ∧
     (processTool envExecOk tuW stHit []).2 =
       [] ++ [.tool_result "1" (truncateResult ("out" ++ cachedMarker))]) ∧
    (cacheHas stEmpty.toolCache (cacheKey "web_search" qIn) = false ∧
     envExecOk.exec 0 "web_search" qIn = .ok "fresh" ∧
     cacheGet (processTool envExecOk tuW stEmpty []).1.toolCache
       (cacheKey "web_search" qIn) = some "fresh") ∧
    (CACHE_EXEMPT_TOOLS.contains "shell" = true ∧
     (processTool envExecOk tuShell stEmpty []).1.execLog =
       stEmpty.execLog ++ [("shell", qIn)]) := by
  refine ⟨⟨rfl, rfl, ?_⟩, ⟨rfl, rfl, ?_⟩, ⟨rfl, ?_⟩⟩
  · exact (C7_amended_dedup_cache envExecOk tuW stHit stHit [] [] "out" "fresh").1 rfl rfl
  · exact (C7_amended_dedup_cache envExecOk tuW stEmpty stEmpty [] [] "out" "fresh").2.1
      rfl rfl
  · exact (C7_amended_dedup_cache envExecOk tuShell stEmpty stEmpty [] [] "out"
      "fresh").2.2 rfl

/-- C8 witness: with an executor that throws on every invocation the
loop still returns a result, and the thrown error is fed back as an
error-string tool result. -/
theorem C8_witness :
    (callClaude envThrow cfgMax2 msgsHi).isOk = true ∧
    (processTool envThrow tuW stEmpty []).2 =
      [] ++ [.tool_result "1" (truncateResult ("Error: " ++ "boom"))] := by
  constructor
  · obtain ⟨r, hr, _⟩ := (C8_error_containment envThrow cfgMax2 msgsHi tuW stEmpty []
      "boom" (fun b n m => ⟨if b then respTools1 else respSum, rfl⟩)).1
    rw [hr]
    rfl
  · exact (C8_error_containment envThrow cfgMax2 msgsHi tuW stEmpty [] "boom"
      (fun b n m => ⟨if b then respTools1 else respSum, rfl⟩)).2 rfl rfl

/-- C9 witness: a concrete five-message conversation keeps its last four
messages byte-identical under compaction. -/
theorem C9_witness :
    4 < msgs5.length ∧
    ((trimOlderToolResults msgs5).length = msgs5.length ∧
     (trimOlderToolResults msgs5).drop (msgs5.length - 4) =
       msgs5.drop (msgs5.length - 4)) :=
  ⟨by decide, C9_compaction_preserves_tail msgs5 (by decide)⟩

/-- C10 witness: a throwing execution is re-attempted on a later
identical call because nothing was stored under its key. -/
theorem C10_witness :
    cacheHas stEmpty.toolCache (cacheKey "web_search" qIn) = false ∧
    (processTool envThrow tuW stEmpty []).1.execLog =
      stEmpty.execLog ++ [("web_search", qIn)] ∧
    (processTool envThrow tuW stEmpty []).1.toolCache = stEmpty.toolCache := by
  refine ⟨rfl, ?_, ?_⟩
  · exact (C10_errors_not_cached envThrow tuW stEmpty [] "boom" rfl).1
  · exact (C10_errors_not_cached envThrow tuW stEmpty [] "boom" rfl).2 rfl

end AgentLoop
